import Mathlib

/-!
Verification of the yabasco Smith-chart engine (src/src/yabasco.py).

The development shallowly embeds the transform utilities
(`gamma_from_normalized`, `swr_from_gamma`, the resistance-circle and
reactance-arc geometry, the unit-disk clipping helper `_plot_inside`)
and the chart state model (`update_impedance`, `remove_impedance`,
`update_grid`, the color cycle and the trace map), and proves or refutes
the specified properties against these definitions.

Conventions: Python complex floats in the state model are embedded as
pairs of rationals (`Cplx`); the pure transform functions that need a
magnitude (a square root) are embedded over Mathlib's `ℂ`/`ℝ`.  Python's
`np.inf` sentinels are embedded as dedicated constructors (`SwrResult.inf`,
`GammaResult.inf`).  Python dicts are embedded as ordered association
lists (insertion order preserved, as in CPython).
-/

set_option maxHeartbeats 1000000

namespace Yabasco

/-! ## Transform library -/

/-- Result of `swr_from_gamma`: either the `np.inf` sentinel or a finite value. -/
inductive SwrResult where
  | inf : SwrResult
  | val : ℝ → SwrResult

/-- Result of `gamma_from_normalized`: either the `complex(np.inf, 0)` sentinel
(returned when Python raises `ZeroDivisionError`, i.e. at `z_norm = -1`)
or a finite complex value. -/
inductive GammaResult where
  | inf : GammaResult
  | val : ℂ → GammaResult

open Classical in
/-- Embeds `gamma_from_normalized(z_norm)`: `(z_norm - 1)/(z_norm + 1)`,
with the `ZeroDivisionError` handler (division by `z_norm + 1 = 0`,
i.e. `z_norm = -1`) returning the infinite sentinel. -/
noncomputable def gamma_from_normalized (z : ℂ) : GammaResult :=
  if z = -1 then GammaResult.inf else GammaResult.val ((z - 1) / (z + 1))

open Classical in
/-- Embeds `swr_from_gamma(gamma)`: `abs_gamma = abs(gamma)`;
`np.inf` when `abs_gamma >= 1`, else `(1 + abs_gamma)/(1 - abs_gamma)`. -/
noncomputable def swr_from_gamma (g : ℂ) : SwrResult :=
  if 1 ≤ Complex.abs g then SwrResult.inf
  else SwrResult.val ((1 + Complex.abs g) / (1 - Complex.abs g))

/-- Embeds the constant-resistance circle geometry of
`_draw_resistance_circles`: `center = R / (R + 1)`, `rad = 1 / (R + 1)`
(center on the real axis, so the pair is (center, radius)). -/
noncomputable def resistance_circle (R : ℝ) : ℝ × ℝ :=
  (R / (R + 1), 1 / (R + 1))

/-! ## Unit-disk clipping (`_plot_inside`) -/

/-- A plane point, as a pair of rationals. -/
abbrev Point := ℚ × ℚ

/-- The mask of `_plot_inside`: `(x*x + y*y) <= 1.000001`
(the tolerance `1.000001` written exactly as a rational). -/
def insideDisk (q : Point) : Bool :=
  decide (q.1 * q.1 + q.2 * q.2 ≤ 1000001 / 1000000)

/-- Maximal contiguous runs of elements satisfying `p`, in input order,
elements failing `p` dropped.  This is what the index arithmetic of
`_plot_inside` computes: `idx = nonzero(mask)`, split where
`diff(idx) != 1`, one plotted segment per run (and an early return with
no segments when the mask is nowhere true). -/
def splitRuns {α : Type} (p : α → Bool) : List α → List (List α)
  | [] => []
  | [x] => if p x then [[x]] else []
  | x :: y :: xs =>
    let rest := splitRuns p (y :: xs)
    if p x then
      if p y then
        match rest with
        | s :: ss => (x :: s) :: ss
        | [] => [[x]]
      else [x] :: rest
    else rest

/-- Embeds `_plot_inside(x, y)`: the list of contiguous segments of the
input path that lie inside the unit disk (within tolerance). -/
def plot_inside (pts : List Point) : List (List Point) :=
  splitRuns insideDisk pts

/-- Embeds `np.linspace(a, b, n)`: `n` evenly spaced values from `a` to `b`
inclusive (`numpy` returns `[a]` for `n = 1` and `[]` for `n = 0`). -/
def linspace (a b : ℚ) : ℕ → List ℚ
  | 0 => []
  | 1 => [a]
  | n + 2 => (List.range (n + 2)).map (fun i : ℕ => a + (i : ℚ) * ((b - a) / ((n : ℚ) + 1)))

/-- Embeds `x_vals = np.linspace(0.1, float(self.num_x_lines), self.num_x_lines)`. -/
def reactance_x_vals (num_x : ℕ) : List ℚ :=
  linspace (1 / 10) (num_x : ℚ) num_x

/-- Embeds the positive-reactance circle center `(cx_pos, cy_pos) = (1.0, 1.0/X)`. -/
def reactance_arc_center_pos (X : ℚ) : ℚ × ℚ := (1, 1 / X)

/-- Embeds the negative-reactance circle center `(cx_neg, cy_neg) = (1.0, -1.0/X)`. -/
def reactance_arc_center_neg (X : ℚ) : ℚ × ℚ := (1, -(1 / X))

/-! ## Chart state model: the trace map of `SmithChartCanvas` -/

/-- A Python complex number (pair of float components), embedded with
rational components. -/
structure Cplx where
  re : ℚ
  im : ℚ
deriving DecidableEq, Repr

/-- The complex zero `0+0j` (falsy in Python). -/
def czero : Cplx := ⟨0, 0⟩

/-- The default impedance `50+0j`. -/
def c50 : Cplx := ⟨50, 0⟩

/-- One entry of `self.impedances`:
`{'zL': complex, 'z0': complex, 'color': str, 'show_swr': bool}`. -/
structure ImpTrace where
  zL : Cplx
  z0 : Cplx
  color : String
  show_swr : Bool
deriving DecidableEq, Repr

/-- The fixed palette `SmithChartCanvas.COLOR_CYCLE`. -/
def COLOR_CYCLE : List String :=
  ["#e41a1c", "#377eb8", "#4daf4a", "#984ea3",
   "#ff7f00", "#ffff33", "#a65628", "#f781bf", "#999999"]

/-- `self.impedances`, embedded as an insertion-ordered association list
(CPython dicts preserve insertion order; keys are unique). -/
abbrev Impedances := List (ℕ × ImpTrace)

/-- Dict membership/lookup: `self.impedances[pid]`, `pid in self.impedances`. -/
def lookupTrace : Impedances → ℕ → Option ImpTrace
  | [], _ => none
  | e :: es, pid => if e.1 = pid then some e.2 else lookupTrace es pid

/-- Dict item mutation `self.impedances[pid][field] = v`: rewrite the value at
key `pid`, keeping insertion order. -/
def setTraceField (imps : Impedances) (pid : ℕ) (f : ImpTrace → ImpTrace) : Impedances :=
  imps.map (fun e => if e.1 = pid then (e.1, f e.2) else e)

/-- Python truthiness defaulting `z or (50+0j)` on an optional complex
argument: `None` and `0+0j` are falsy and give `50+0j`. -/
def orDefault (z : Option Cplx) : Cplx :=
  match z with
  | none => c50
  | some w => if w = czero then c50 else w

/-- Embeds `SmithChartCanvas.update_impedance(pid, zL, z0, color)`:
if `pid not in self.impedances`, insert a fresh entry with defaults
(`zL or (50+0j)`, `z0 or (50+0j)`, `COLOR_CYCLE[len(self.impedances) %
len(COLOR_CYCLE)]`, `show_swr=False`); then each argument that
`is not None` overwrites the stored field. -/
def update_impedance (imps : Impedances) (pid : ℕ)
    (zL z0 : Option Cplx) (color : Option String) : Impedances :=
  let imps1 :=
    if lookupTrace imps pid = none then
      imps ++ [(pid, { zL := orDefault zL, z0 := orDefault z0,
                       color := COLOR_CYCLE.getD (imps.length % COLOR_CYCLE.length) "",
                       show_swr := false })]
    else imps
  let imps2 := match zL with
    | some z => setTraceField imps1 pid (fun t => { t with zL := z })
    | none => imps1
  let imps3 := match z0 with
    | some z => setTraceField imps2 pid (fun t => { t with z0 := z })
    | none => imps2
  match color with
  | some c => setTraceField imps3 pid (fun t => { t with color := c })
  | none => imps3

/-- Embeds `SmithChartCanvas.remove_impedance(pid)`:
`if pid in self.impedances: del self.impedances[pid]`. -/
def remove_impedance (imps : Impedances) (pid : ℕ) : Impedances :=
  if lookupTrace imps pid = none then imps
  else imps.filter (fun e => decide (e.1 ≠ pid))

/-- The trace ids drawn by `_draw_impedances` on a redraw: every stored trace
whose `z0` is nonzero (a zero `z0` makes `zL / z0` raise `ZeroDivisionError`,
which the `except` clause turns into skipping that trace). -/
def renderedTraceIds (imps : Impedances) : List ℕ :=
  (imps.filter (fun e => decide (e.2.z0 ≠ czero))).map Prod.fst

/-! ## Chart state model: grid parameters (`update_grid`) -/

/-- The grid-parameter fields of `SmithChartCanvas` set in `__init__`
(counts and strides are Python ints, embedded as `ℤ`; the label radius is a
float, embedded as `ℚ`). -/
structure GridState where
  num_r_outer_lines : ℤ
  num_r_inner_lines : ℤ
  num_x_lines : ℤ
  x_label_at_r : ℚ
  label_resistance_every : ℤ
  label_reactance_every : ℤ
  show_radial : Bool
  show_unit : Bool
  show_r1 : Bool
  resistance_color : String
  reactance_color : String
  radial_line_color : String
  unit_circle_color : String
  gamma_circle_color : String
  r1_color : String
deriving DecidableEq, Repr

/-- The defaults assigned in `SmithChartCanvas.__init__`. -/
def initialGridState : GridState :=
  { num_r_outer_lines := 7, num_r_inner_lines := 7, num_x_lines := 9,
    x_label_at_r := 1, label_resistance_every := 2, label_reactance_every := 2,
    show_radial := true, show_unit := true, show_r1 := true,
    resistance_color := "#323232", reactance_color := "#323232",
    radial_line_color := "#323232", unit_circle_color := "#323232",
    gamma_circle_color := "#323232", r1_color := "#e6550d" }

/-- Embeds `SmithChartCanvas.update_grid(...)`: every keyword argument that
`is not None` is stored into the corresponding field, with no range check.
`grid_color` fans out to the resistance, reactance, unit-circle and
gamma-circle colors; `g_color` (the `γ_color` keyword) sets only the
gamma-circle color.  The `show_radial` argument is accepted but never
stored (as in the source, which has no branch for it). -/
def update_grid (s : GridState)
    (num_r_outer num_r_inner num_x : Option ℤ)
    (label_r_every label_x_every : Option ℤ)
    (x_label_at_r : Option ℚ)
    (show_radial show_unit show_r1 : Option Bool)
    (grid_color r1_color g_color : Option String) : GridState :=
  let s1 := match num_r_outer with
    | some v => { s with num_r_outer_lines := v }
    | none => s
  let s2 := match num_r_inner with
    | some v => { s1 with num_r_inner_lines := v }
    | none => s1
  let s3 := match num_x with
    | some v => { s2 with num_x_lines := v }
    | none => s2
  let s4 := match label_r_every with
    | some v => { s3 with label_resistance_every := v }
    | none => s3
  let s5 := match label_x_every with
    | some v => { s4 with label_reactance_every := v }
    | none => s4
  let s6 := match x_label_at_r with
    | some v => { s5 with x_label_at_r := v }
    | none => s5
  let s7 := match show_unit with
    | some v => { s6 with show_unit := v }
    | none => s6
  let s8 := match show_r1 with
    | some v => { s7 with show_r1 := v }
    | none => s7
  let s9 := match grid_color with
    | some c => { s8 with resistance_color := c, reactance_color := c,
                          unit_circle_color := c, gamma_circle_color := c }
    | none => s8
  let s10 := match r1_color with
    | some c => { s9 with r1_color := c }
    | none => s9
  match g_color with
  | some c => { s10 with gamma_circle_color := c }
  | none => s10

/-! ## Proofs -/

lemma splitRuns_cons_neg {α : Type} (p : α → Bool) (x : α) (t : List α)
    (hx : p x = false) : splitRuns p (x :: t) = splitRuns p t := by
  cases t with
  | nil => simp [splitRuns, hx]
  | cons y ys => simp [splitRuns, hx]

lemma splitRuns_append_neg {α : Type} (p : α → Bool) (B t : List α)
    (hB : ∀ a ∈ B, p a = false) :
    splitRuns p (B ++ t) = splitRuns p t := by
  induction B with
  | nil => rfl
  | cons b B ih =>
    rw [List.cons_append, splitRuns_cons_neg p b (B ++ t) (hB b (by simp)),
      ih (fun a ha => hB a (by simp [ha]))]

lemma splitRuns_all_pos {α : Type} (p : α → Bool) (l : List α)
    (hl : l ≠ []) (hp : ∀ a ∈ l, p a = true) : splitRuns p l = [l] := by
  induction l with
  | nil => exact absurd rfl hl
  | cons x xs ih =>
    cases xs with
    | nil => simp [splitRuns, hp x (by simp)]
    | cons y ys =>
      have hrest : splitRuns p (y :: ys) = [y :: ys] :=
        ih (by simp) (fun a ha => hp a (by simp [ha]))
      simp [splitRuns, hp x (by simp), hp y (by simp), hrest]

lemma splitRuns_pos_break {α : Type} (p : α → Bool) (A : List α) (b : α)
    (t : List α) (hA : ∀ a ∈ A, p a = true) (hAne : A ≠ []) (hb : p b = false) :
    splitRuns p (A ++ b :: t) = A :: splitRuns p (b :: t) := by
  induction A with
  | nil => exact absurd rfl hAne
  | cons x xs ih =>
    cases xs with
    | nil => simp [splitRuns, hA x (by simp), hb]
    | cons y ys =>
      have hrest : splitRuns p (y :: (ys ++ b :: t)) = (y :: ys) :: splitRuns p (b :: t) := by
        have h := ih (fun a ha => hA a (by simp [ha])) (by simp)
        simpa using h
      simp [splitRuns, hA x (by simp), hA y (by simp), hrest]

/-- C8: `_plot_inside` on an all-inside path yields exactly one segment equal
to the input; on an all-outside path yields zero segments; on a path that is
inside, then outside, then inside again (crossing the boundary twice) it
yields exactly the two in-disk runs, in input order, whose concatenation
excludes exactly the out-of-disk run. -/
theorem plot_inside_spec :
    (∀ pts : List Point, pts ≠ [] → (∀ q ∈ pts, insideDisk q = true) →
      plot_inside pts = [pts]) ∧
    (∀ pts : List Point, (∀ q ∈ pts, insideDisk q = false) →
      plot_inside pts = []) ∧
    (∀ A B C : List Point, A ≠ [] → B ≠ [] → C ≠ [] →
      (∀ q ∈ A, insideDisk q = true) → (∀ q ∈ B, insideDisk q = false) →
      (∀ q ∈ C, insideDisk q = true) →
      plot_inside (A ++ B ++ C) = [A, C]) := by
  refine ⟨?_, ?_, ?_⟩
  · intro pts hne hin
    exact splitRuns_all_pos insideDisk pts hne hin
  · intro pts hout
    have h := splitRuns_append_neg insideDisk pts [] hout
    simpa using h
  · intro A B C hA hB hC hain haout hcin
    cases B with
    | nil => exact absurd rfl hB
    | cons b B' =>
      have h1 : splitRuns insideDisk (A ++ (b :: B') ++ C)
          = A :: splitRuns insideDisk (b :: (B' ++ C)) := by
        rw [List.append_assoc, List.cons_append]
        exact splitRuns_pos_break insideDisk A b (B' ++ C) hain hA
          (haout b (by simp))
      have h2 : splitRuns insideDisk (b :: (B' ++ C)) = splitRuns insideDisk C := by
        have := splitRuns_append_neg insideDisk (b :: B') C haout
        simpa using this
      have h3 : splitRuns insideDisk C = [C] := splitRuns_all_pos insideDisk C hC hcin
      unfold plot_inside
      rw [h1, h2, h3]

/-- Witness for C8 at a concrete three-point path crossing the boundary twice. -/
theorem plot_inside_spec_witness :
    plot_inside [((0 : ℚ), (0 : ℚ)), (2, 0), (1, 0)] = [[((0 : ℚ), (0 : ℚ))], [(1, 0)]] :=
  plot_inside_spec.2.2 [(0, 0)] [(2, 0)] [(1, 0)] (by simp) (by simp) (by simp)
    (by norm_num [insideDisk]) (by norm_num [insideDisk]) (by norm_num [insideDisk])

/-! ## Reactance grid values (`_draw_reactance_arcs_and_labels`) -/

lemma linspace_getElem? (a b : ℚ) (m i : ℕ) (hi : i < m + 2) :
    (linspace a b (m + 2))[i]? = some (a + (i : ℚ) * ((b - a) / ((m : ℚ) + 1))) := by
  simp only [linspace]
  rw [List.getElem?_map, List.getElem?_range hi, Option.map_some']

lemma linspace_length (a b : ℚ) (m : ℕ) : (linspace a b (m + 2)).length = m + 2 := by
  simp only [linspace]
  rw [List.length_map, List.length_range]

lemma linspace_head? (a b : ℚ) (m : ℕ) : (linspace a b (m + 2)).head? = some a := by
  simp only [linspace]
  rw [List.range_succ_eq_map]
  simp only [List.map_cons, List.head?_cons, Option.some.injEq]
  norm_num

lemma linspace_getLast? (a b : ℚ) (m : ℕ) :
    (linspace a b (m + 2)).getLast? =
      some (a + ((m : ℚ) + 1) * ((b - a) / ((m : ℚ) + 1))) := by
  have hlen := linspace_length a b m
  have hg := linspace_getElem? a b m (m + 1) (by omega)
  rw [List.getLast?_eq_getElem?, hlen]
  rw [show m + 2 - 1 = m + 1 from rfl]
  rw [hg]
  congr 1
  push_cast
  ring

lemma linspace_mem (a b : ℚ) (m : ℕ) (x : ℚ) (hx : x ∈ linspace a b (m + 2)) :
    ∃ i : ℕ, i < m + 2 ∧ x = a + (i : ℚ) * ((b - a) / ((m : ℚ) + 1)) := by
  simp only [linspace] at hx
  rw [List.mem_map] at hx
  obtain ⟨i, hi, hxe⟩ := hx
  rw [List.mem_range] at hi
  exact ⟨i, hi, hxe.symm⟩

/-- C3 counterexample: at the default count `N_x = 9` the generated reactance
values start at `0.1`, not `1.0`, so they are not `1.0, 2.0, ..., 9.0`. -/
theorem reactance_x_vals_cx :
    (reactance_x_vals 9).head? = some (1 / 10) ∧ ((1 : ℚ) / 10) ≠ 1 ∧
    reactance_x_vals 9 ≠ [1, 2, 3, 4, 5, 6, 7, 8, 9] := by
  have hh : (reactance_x_vals 9).head? = some (1 / 10) := by
    simp only [reactance_x_vals]
    rw [show (9 : ℕ) = 7 + 2 from rfl]
    exact linspace_head? (1 / 10) (((7 : ℕ) + 2 : ℕ) : ℚ) 7
  refine ⟨hh, by norm_num, fun h => ?_⟩
  rw [h] at hh
  simp only [List.head?_cons, Option.some.injEq] at hh
  norm_num at hh

/-- C3 amended: for `N_x ≥ 2` the grid produces exactly `N_x` positive
reactance values evenly spaced from `0.1` to `N_x` inclusive
(`np.linspace(0.1, N_x, N_x)`, spacing `(N_x - 0.1)/(N_x - 1)`), all within
`(0, N_x]`; for `N_x = 1` the single value is `0.1`; and the lower-half arcs
use the same values negated (the negative arc center for `X` equals the
positive arc center for `-X`). -/
theorem reactance_x_vals_spec (n : ℕ) (hn : 2 ≤ n) :
    (reactance_x_vals n).length = n ∧
    (reactance_x_vals n).head? = some (1 / 10) ∧
    (reactance_x_vals n).getLast? = some ((n : ℚ)) ∧
    (∀ i : ℕ, i < n → (reactance_x_vals n)[i]? =
      some (1 / 10 + (i : ℚ) * (((n : ℚ) - 1 / 10) / ((n : ℚ) - 1)))) ∧
    (∀ x ∈ reactance_x_vals n, 0 < x ∧ x ≤ (n : ℚ)) ∧
    reactance_x_vals 1 = [1 / 10] ∧
    (∀ X : ℚ, reactance_arc_center_neg X = reactance_arc_center_pos (-X)) := by
  obtain ⟨m, rfl⟩ : ∃ m, n = m + 2 := ⟨n - 2, by omega⟩
  have hxv : reactance_x_vals (m + 2) = linspace (1 / 10) ((m : ℚ) + 2) (m + 2) := by
    simp only [reactance_x_vals]
    push_cast
    rfl
  have hm1 : (0 : ℚ) < (m : ℚ) + 1 := by positivity
  have hnum : (0 : ℚ) < ((m : ℚ) + 2) - 1 / 10 := by
    have : (0 : ℚ) ≤ (m : ℚ) := Nat.cast_nonneg m
    linarith
  have hstep : (0 : ℚ) < (((m : ℚ) + 2) - 1 / 10) / ((m : ℚ) + 1) :=
    div_pos hnum hm1
  refine ⟨?_, ?_, ?_, ?_, ?_, rfl, ?_⟩
  · rw [hxv]
    exact linspace_length _ _ m
  · rw [hxv]
    exact linspace_head? _ _ m
  · rw [hxv, linspace_getLast? _ _ m]
    congr 1
    push_cast
    field_simp
    ring
  · intro i hi
    rw [hxv, linspace_getElem? _ _ m i hi]
    congr 1
    push_cast
    ring
  · intro x hx
    rw [hxv] at hx
    obtain ⟨i, hi, rfl⟩ := linspace_mem _ _ m x hx
    have hige : (0 : ℚ) ≤ (i : ℚ) := Nat.cast_nonneg i
    have hile : (i : ℚ) ≤ (m : ℚ) + 1 := by
      have h : i ≤ m + 1 := by omega
      exact_mod_cast h
    constructor
    · have h1 : (0 : ℚ) ≤ (i : ℚ) * ((((m : ℚ) + 2) - 1 / 10) / ((m : ℚ) + 1)) :=
        mul_nonneg hige hstep.le
      linarith
    · have h2 : (i : ℚ) * ((((m : ℚ) + 2) - 1 / 10) / ((m : ℚ) + 1))
          ≤ ((m : ℚ) + 1) * ((((m : ℚ) + 2) - 1 / 10) / ((m : ℚ) + 1)) :=
        mul_le_mul_of_nonneg_right hile hstep.le
      have h3 : ((m : ℚ) + 1) * ((((m : ℚ) + 2) - 1 / 10) / ((m : ℚ) + 1))
          = ((m : ℚ) + 2) - 1 / 10 := by
        field_simp
        ring
      rw [h3] at h2
      push_cast
      linarith
  · intro X
    simp [reactance_arc_center_neg, reactance_arc_center_pos, div_neg]

/-- Witness for C3 (amended) at the concrete count `N_x = 2`. -/
theorem reactance_x_vals_spec_witness :
    (reactance_x_vals 2).length = 2 ∧ (reactance_x_vals 2).head? = some (1 / 10) := by
  obtain ⟨h1, h2, -, -, -, -, -⟩ := reactance_x_vals_spec 2 (by norm_num)
  exact ⟨h1, h2⟩

/-- C5: `swr_from_gamma` equals `(1+|Γ|)/(1-|Γ|)` for `|Γ| < 1`, equals `1`
exactly at `Γ = 0`, is monotonically non-decreasing in `|Γ|` over `[0,1)`,
and returns the infinity sentinel (not an exception) whenever `|Γ| ≥ 1`. -/

theorem swr_from_gamma_spec (g g' : ℂ)
    (hle : Complex.abs g ≤ Complex.abs g') (hlt : Complex.abs g' < 1) :
    swr_from_gamma g = SwrResult.val ((1 + Complex.abs g) / (1 - Complex.abs g)) ∧
    swr_from_gamma 0 = SwrResult.val 1 ∧
    (∀ w : ℂ, swr_from_gamma w = SwrResult.val 1 → w = 0) ∧
    (1 + Complex.abs g) / (1 - Complex.abs g) ≤
      (1 + Complex.abs g') / (1 - Complex.abs g') ∧
    (∀ w : ℂ, 1 ≤ Complex.abs w → swr_from_gamma w = SwrResult.inf) := by
  have ha0 : 0 ≤ Complex.abs g := AbsoluteValue.nonneg _ g
  have hb0 : 0 ≤ Complex.abs g' := AbsoluteValue.nonneg _ g'
  have ha1 : Complex.abs g < 1 := lt_of_le_of_lt hle hlt
  have hden : (0 : ℝ) < 1 - Complex.abs g := by linarith
  have hden' : (0 : ℝ) < 1 - Complex.abs g' := by linarith
  refine ⟨?_, ?_, ?_, ?_, ?_⟩
  · unfold swr_from_gamma
    rw [if_neg (not_le.mpr ha1)]
  · unfold swr_from_gamma
    rw [if_neg (by simp)]
    norm_num
  · intro w hw
    by_cases h1 : 1 ≤ Complex.abs w
    · unfold swr_from_gamma at hw
      rw [if_pos h1] at hw
      exact (SwrResult.noConfusion hw)
    · push_neg at h1
      unfold swr_from_gamma at hw
      rw [if_neg (not_le.mpr h1)] at hw
      injection hw with hv
      have hw0 : 0 ≤ Complex.abs w := AbsoluteValue.nonneg _ w
      have hdw : (0 : ℝ) < 1 - Complex.abs w := by linarith
      rw [div_eq_iff hdw.ne'] at hv
      have : Complex.abs w = 0 := by linarith
      simpa using this
  · rw [div_le_div_iff₀ hden hden']
    nlinarith
  · intro w hw
    unfold swr_from_gamma
    rw [if_pos hw]

/-- Witness for C5 at concrete inputs `Γ = 0` and `Γ = 1`. -/
theorem swr_from_gamma_spec_witness :
    swr_from_gamma 0 = SwrResult.val 1 ∧ swr_from_gamma 1 = SwrResult.inf := by
  obtain ⟨-, h2, -, -, h5⟩ := swr_from_gamma_spec 0 0 le_rfl (by simp)
  exact ⟨h2, h5 1 (by simp)⟩

/-- C6: `gamma_from_normalized` returns `(z_norm - 1)/(z_norm + 1)` for every
`z_norm ≠ -1` (where the denominator is nonzero), and returns the
infinite-magnitude sentinel (not an exception) at `z_norm = -1`. -/
theorem gamma_from_normalized_spec (z : ℂ) (hz : z ≠ -1) :
    gamma_from_normalized z = GammaResult.val ((z - 1) / (z + 1)) ∧
    z + 1 ≠ 0 ∧
    gamma_from_normalized (-1) = GammaResult.inf := by
  refine ⟨?_, ?_, ?_⟩
  · unfold gamma_from_normalized
    rw [if_neg hz]
  · intro h
    exact hz (eq_neg_of_add_eq_zero_left h)
  · unfold gamma_from_normalized
    rw [if_pos rfl]

/-- Witness for C6 at the concrete input `z_norm = 0`. -/
theorem gamma_from_normalized_spec_witness :
    gamma_from_normalized 0 = GammaResult.val (-1) ∧
    gamma_from_normalized (-1) = GammaResult.inf := by
  obtain ⟨h1, -, h3⟩ := gamma_from_normalized_spec 0 (by norm_num)
  refine ⟨?_, h3⟩
  rw [h1]
  norm_num

/-- C7: for every real `R > 0` the constant-resistance circle has its center
`R/(R+1)` on the real axis inside `(0,1)` and radius `1/(R+1) > 0`, and the
distance from the center to the point `(1,0)` equals the radius exactly, so
every resistance circle is tangent to the unit circle at `(1,0)`. -/
theorem resistance_circle_spec (R : ℝ) (hR : 0 < R) :
    0 < (resistance_circle R).1 ∧ (resistance_circle R).1 < 1 ∧
    |1 - (resistance_circle R).1| = (resistance_circle R).2 ∧
    0 < (resistance_circle R).2 := by
  have h1 : (0 : ℝ) < R + 1 := by linarith
  simp only [resistance_circle]
  refine ⟨div_pos hR h1, ?_, ?_, by positivity⟩
  · rw [div_lt_one h1]
    linarith
  · have hc : (1 : ℝ) - R / (R + 1) = 1 / (R + 1) := by
      field_simp
    rw [hc, abs_of_pos (by positivity)]

/-- Witness for C7 at the concrete input `R = 3`. -/
theorem resistance_circle_spec_witness :
    |1 - (resistance_circle 3).1| = (resistance_circle 3).2 ∧
    0 < (resistance_circle 3).1 := by
  obtain ⟨h1, -, h3, -⟩ := resistance_circle_spec 3 (by norm_num)
  exact ⟨h3, h1⟩

lemma lookupTrace_append_right (imps : Impedances) (pid : ℕ)
    (h : lookupTrace imps pid = none) (t : ImpTrace) :
    lookupTrace (imps ++ [(pid, t)]) pid = some t := by
  induction imps with
  | nil => simp [lookupTrace]
  | cons e es ih =>
    by_cases he : e.1 = pid
    · rw [lookupTrace, if_pos he] at h
      exact absurd h (by simp)
    · rw [lookupTrace, if_neg he] at h
      rw [List.cons_append, lookupTrace, if_neg he]
      exact ih h

lemma lookupTrace_setTraceField (imps : Impedances) (pid : ℕ) (f : ImpTrace → ImpTrace) :
    lookupTrace (setTraceField imps pid f) pid = Option.map f (lookupTrace imps pid) := by
  induction imps with
  | nil => simp [lookupTrace, setTraceField]
  | cons e es ih =>
    by_cases he : e.1 = pid
    · simp [lookupTrace, setTraceField, he]
    · simp only [setTraceField, List.map_cons, if_neg he]
      rw [lookupTrace, if_neg he, lookupTrace, if_neg he]
      exact ih

lemma lookupTrace_filter_self (imps : Impedances) (pid : ℕ) :
    lookupTrace (imps.filter (fun e => decide (e.1 ≠ pid))) pid = none := by
  induction imps with
  | nil => simp [lookupTrace]
  | cons e es ih =>
    by_cases he : e.1 = pid
    · simp only [List.filter_cons, he]
      simpa using ih
    · simp only [List.filter_cons]
      rw [if_pos (by simpa using he)]
      rw [lookupTrace, if_neg he]
      exact ih

lemma lookupTrace_remove_self (imps : Impedances) (pid : ℕ) :
    lookupTrace (remove_impedance imps pid) pid = none := by
  unfold remove_impedance
  by_cases h : lookupTrace imps pid = none
  · rw [if_pos h]
    exact h
  · rw [if_neg h]
    exact lookupTrace_filter_self imps pid

/-- The trace stored at `pid` after an `update_impedance` call that found
`pid` absent: every supplied argument is stored verbatim (the `is not None`
assignments run after the creation), and absent arguments keep the creation
defaults. -/
lemma lookupTrace_update_absent (imps : Impedances) (pid : ℕ)
    (zL z0 : Option Cplx) (color : Option String)
    (h : lookupTrace imps pid = none) :
    lookupTrace (update_impedance imps pid zL z0 color) pid =
      some { zL := zL.getD c50, z0 := z0.getD c50,
             color := color.getD (COLOR_CYCLE.getD (imps.length % COLOR_CYCLE.length) ""),
             show_swr := false } := by
  cases zL with
  | none =>
    cases z0 with
    | none =>
      cases color with
      | none =>
        simp [update_impedance, h, lookupTrace_append_right imps pid h, orDefault]
      | some c =>
        simp [update_impedance, h, lookupTrace_setTraceField,
          lookupTrace_append_right imps pid h, orDefault]
    | some w0 =>
      cases color with
      | none =>
        simp [update_impedance, h, lookupTrace_setTraceField,
          lookupTrace_append_right imps pid h, orDefault]
      | some c =>
        simp [update_impedance, h, lookupTrace_setTraceField,
          lookupTrace_append_right imps pid h, orDefault]
  | some wL =>
    cases z0 with
    | none =>
      cases color with
      | none =>
        simp [update_impedance, h, lookupTrace_setTraceField,
          lookupTrace_append_right imps pid h, orDefault]
      | some c =>
        simp [update_impedance, h, lookupTrace_setTraceField,
          lookupTrace_append_right imps pid h, orDefault]
    | some w0 =>
      cases color with
      | none =>
        simp [update_impedance, h, lookupTrace_setTraceField,
          lookupTrace_append_right imps pid h, orDefault]
      | some c =>
        simp [update_impedance, h, lookupTrace_setTraceField,
          lookupTrace_append_right imps pid h, orDefault]

/-- C1 counterexample: register trace 3, remove it, then call
`update_impedance` on the old id with no field arguments — the id is
re-created (lookup succeeds) and reappears in the rendered trace set,
so the call is not a no-op. -/
theorem remove_then_update_reappears_cx :
    (lookupTrace (update_impedance
        (remove_impedance (update_impedance [] 3 none none none) 3)
        3 none none none) 3).isSome = true ∧
    3 ∈ renderedTraceIds (update_impedance
        (remove_impedance (update_impedance [] 3 none none none) 3)
        3 none none none) := by
  constructor
  · decide
  · decide

/-- C1 amended: calling `update_impedance` on a removed (or never-registered)
id is not a no-op: `update_impedance` doubles as registration, so the call
re-creates the trace with defaults (`Z_L = Z₀ = 50+0j`, palette color,
SWR circle off) for unsupplied fields, and the id reappears in the rendered
scene's trace set. -/
theorem update_after_remove_registers (imps : Impedances) (pid : ℕ) :
    (lookupTrace (update_impedance (remove_impedance imps pid) pid none none none)
      pid).isSome = true ∧
    pid ∈ renderedTraceIds
      (update_impedance (remove_impedance imps pid) pid none none none) := by
  have hrem : lookupTrace (remove_impedance imps pid) pid = none :=
    lookupTrace_remove_self imps pid
  have hupd : update_impedance (remove_impedance imps pid) pid none none none =
      remove_impedance imps pid ++
        [(pid, { zL := c50, z0 := c50,
                 color := COLOR_CYCLE.getD
                   ((remove_impedance imps pid).length % COLOR_CYCLE.length) "",
                 show_swr := false })] := by
    simp [update_impedance, hrem, orDefault]
  constructor
  · rw [hupd, lookupTrace_append_right _ _ hrem]
    rfl
  · rw [hupd]
    unfold renderedTraceIds
    rw [List.filter_append, List.map_append]
    refine List.mem_append.mpr (Or.inr ?_)
    simp [c50, czero]

/-- C2 counterexample: create traces 0 and 1, remove trace 0, then create
trace 2 (the third trace ever created, ordinal `k = 2`).  Its default color
is palette entry 1 (`"#377eb8"`, because only one trace is registered at
creation time), not palette entry `2 mod 9` (`"#4daf4a"`), so the default
color is not a pure function of creation order. -/
theorem default_color_reuse_cx :
    (lookupTrace (update_impedance
        (remove_impedance
          (update_impedance (update_impedance [] 0 none none none) 1 none none none)
          0)
        2 none none none) 2).map ImpTrace.color = some "#377eb8" ∧
    COLOR_CYCLE.getD (2 % COLOR_CYCLE.length) "" = "#4daf4a" ∧
    ("#377eb8" : String) ≠ "#4daf4a" := by
  refine ⟨by decide, by decide, by decide⟩

/-- C2 amended: the default color of a newly created trace is
`COLOR_CYCLE[m % 9]` where `m` is the number of traces registered at the
moment of creation (`len(self.impedances)`), not the trace's creation
ordinal; removals shrink the map, so default colors shift and can be reused
rather than being monotonic in creation order. -/
theorem default_color_on_create (imps : Impedances) (pid : ℕ)
    (zL z0 : Option Cplx) (h : lookupTrace imps pid = none) :
    (lookupTrace (update_impedance imps pid zL z0 none) pid).map ImpTrace.color =
      some (COLOR_CYCLE.getD (imps.length % COLOR_CYCLE.length) "") := by
  rw [lookupTrace_update_absent imps pid zL z0 none h]
  rfl

/-- Witness for C2 (amended): the very first created trace receives palette
entry `0 % 9`, i.e. `"#e41a1c"`. -/
theorem default_color_on_create_witness :
    (lookupTrace (update_impedance [] 0 none none none) 0).map ImpTrace.color =
      some "#e41a1c" := by
  have h := default_color_on_create [] 0 none none rfl
  rw [h]
  rfl

/-- C10 counterexample: creating trace 5 with `zL = z0 = 0+0j` registers it
with `zL = z0 = 0+0j` (the `or (50+0j)` truthiness defaulting in the
creation dict is immediately overwritten by the `is not None` assignments),
so a trace can be registered with an initial impedance of zero. -/
theorem zero_impedance_registered_cx :
    lookupTrace (update_impedance [] 5 (some ⟨0, 0⟩) (some ⟨0, 0⟩) none) 5 =
      some { zL := ⟨0, 0⟩, z0 := ⟨0, 0⟩, color := "#e41a1c", show_swr := false } ∧
    (⟨0, 0⟩ : Cplx) ≠ c50 := by
  refine ⟨by decide, by decide⟩

/-- C10 amended: when `update_impedance` first creates a trace entry, each
supplied `zL`/`z0` argument is stored verbatim — including an exact `0+0j`
(the creation dict's truthiness substitution of `50+0j` for falsy values is
immediately overwritten by the subsequent `is not None` assignments) — and
only an absent (`None`) argument yields the `50+0j` default. -/
theorem create_stores_supplied_values (imps : Impedances) (pid : ℕ)
    (zL z0 : Option Cplx) (h : lookupTrace imps pid = none) :
    (lookupTrace (update_impedance imps pid zL z0 none) pid).map ImpTrace.zL =
      some (zL.getD c50) ∧
    (lookupTrace (update_impedance imps pid zL z0 none) pid).map ImpTrace.z0 =
      some (z0.getD c50) := by
  rw [lookupTrace_update_absent imps pid zL z0 none h]
  exact ⟨rfl, rfl⟩

/-- Witness for C10 (amended) at the concrete inputs `zL = 0+0j` supplied,
`z0` absent, on an empty trace map. -/
theorem create_stores_supplied_values_witness :
    (lookupTrace (update_impedance [] 7 (some ⟨0, 0⟩) none none) 7).map ImpTrace.zL =
      some ⟨0, 0⟩ ∧
    (lookupTrace (update_impedance [] 7 (some ⟨0, 0⟩) none none) 7).map ImpTrace.z0 =
      some c50 := by
  have h := create_stores_supplied_values [] 7 (some ⟨0, 0⟩) none rfl
  exact h

/-- C9: a call that supplies only `grid_color` sets exactly the four colors
resistance, reactance, unit-circle and gamma-circle to it, and leaves the
R=1 highlight color — and every other field, including the radial-line
color — unchanged. -/
theorem update_grid_color_fanout (s : GridState) (c : String) :
    update_grid s none none none none none none none none none (some c) none none =
      { s with resistance_color := c, reactance_color := c,
               unit_circle_color := c, gamma_circle_color := c } :=
  rfl

/-- C4 counterexample: `update_grid(num_x=0)` on the freshly initialised
state stores the out-of-range count `0` verbatim, violating the claimed
post-call minimum of `1`. -/
theorem update_grid_no_validation_cx :
    (update_grid initialGridState none none (some 0) none none none
        none none none none none none).num_x_lines = 0 ∧
    ¬ (1 ≤ (update_grid initialGridState none none (some 0) none none none
        none none none none none none).num_x_lines) := by
  refine ⟨by decide, by decide⟩

/-- C4 amended: `update_grid` performs no validation or clamping at all —
every supplied numeric field (counts, strides, label radius) is stored
verbatim, including zero and negative values; the declared minimums are
enforced only by the spin-box widgets of the settings panel, outside the
chart state model. -/
theorem update_grid_stores_verbatim (s : GridState) (a b c d e : ℤ) (r : ℚ) :
    update_grid s (some a) (some b) (some c) (some d) (some e) (some r)
        none none none none none none =
      { s with num_r_outer_lines := a, num_r_inner_lines := b, num_x_lines := c,
               label_resistance_every := d, label_reactance_every := e,
               x_label_at_r := r } :=
  rfl

end Yabasco
